import Mathlib

/-!
# Verification of the quantity-based task auto-assignment simulator

Shallow embedding of `src/app.py` (the core simulation engine: the helper
functions `calculate_skill_match`, `format_time`,
`check_requirements_met_for_qty`, and the simulation entry point
`assign_tasks`), together with theorems settling the specification claims.

Modelling conventions:
* Python floats on skill values are modelled as exact rationals `ℚ`.
* Python dicts are modelled either as functions with a default (the
  `defaultdict(int)` inventory becomes `String → ℕ`) or as insertion-ordered
  association lists (`dictInsert` below reproduces CPython dict insertion
  semantics: an existing key keeps its position and gets the new value,
  a fresh key is appended).
* Code that raises an exception caught by the `except` block at the run
  boundary (which makes `assign_tasks` return `None`) is modelled by
  returning `none`; in particular the two division-by-zero sites
  (`workday_minutes // slot_duration_minutes` with a zero slot duration, and
  `total_seconds / total_worker_seconds_per_day` with zero workers).
* The unbounded `while True` loop is modelled with explicit fuel; running
  out of fuel yields `none`.  `assign_tasks` supplies enough fuel for every
  run that the Python loop completes (see the termination analysis in the
  claim theorems: any run that ever reaches a slot with no available task
  can never leave that condition, because nothing but the clock changes in
  the `continue` branch).
* Log entries are stored structurally (worker, piece count, task id,
  description, formatted time label); `LogEntry.event` renders the exact
  f-string the Python code stores.
-/

namespace TaskAssign

/-! ## Data model (classes `TaskSimulationData` / `WorkerSimulationData`) -/

/-- One row of `products.csv` / `products_df`, with the `Requirements` cell
already split on commas (empty list for the NaN/empty cell) and the six
skill columns as exact percentages. -/
structure ProductRow where
  product : String
  task : String
  result : String
  requirements : List String
  bending : ℚ
  gluing : ℚ
  assembling : ℚ
  edgeScrap : ℚ
  openPaper : ℚ
  qualityControl : ℚ
  timePerPieceSeconds : ℕ
deriving Repr, DecidableEq

/-- One row of `workers.csv` / `available_workers_df`.  The three
`FavoriteProduct` columns are never read by the simulation core and are
omitted. -/
structure WorkerRow where
  worker : String
  bending : ℚ
  gluing : ℚ
  assembling : ℚ
  edgeScrap : ℚ
  openPaper : ℚ
  qualityControl : ℚ
deriving Repr, DecidableEq

/-- Python class `TaskSimulationData`: per-catalog-row simulation data. -/
structure TaskSimulationData where
  product : String
  description : String
  task_id : String
  requirements : List String
  skill_requirements : List (String × ℚ)
  time_per_piece_seconds : ℕ
deriving Repr, DecidableEq

/-- Constructor `TaskSimulationData.__init__`: skill ratios are the row percentages
divided by 100. -/
def TaskSimulationData.ofRow (r : ProductRow) : TaskSimulationData where
  product := r.product
  description := r.task
  task_id := r.result
  requirements := r.requirements
  skill_requirements :=
    [("Bending", r.bending / 100), ("Gluing", r.gluing / 100),
     ("Assembling", r.assembling / 100), ("EdgeScrap", r.edgeScrap / 100),
     ("OpenPaper", r.openPaper / 100), ("QualityControl", r.qualityControl / 100)]
  time_per_piece_seconds := r.timePerPieceSeconds

/-- Python class `WorkerSimulationData` (favorite products omitted: unused). -/
structure Worker where
  name : String
  skills : List (String × ℚ)
deriving Repr, DecidableEq

/-- Constructor `WorkerSimulationData.__init__`. -/
def Worker.ofRow (r : WorkerRow) : Worker where
  name := r.worker
  skills :=
    [("Bending", r.bending), ("Gluing", r.gluing),
     ("Assembling", r.assembling), ("EdgeScrap", r.edgeScrap),
     ("OpenPaper", r.openPaper), ("QualityControl", r.qualityControl)]

/-- One element of `all_task_instances`: the mutable task-instance dict
built at lines 224–232 of `app.py`. -/
structure Task where
  task_id : String
  description : String
  product : String
  requirements : List String
  skill_requirements : List (String × ℚ)
  time_per_piece : ℕ
  remaining_qty : ℕ
deriving Repr, DecidableEq

/-- A `simulation_log` entry, stored structurally; the Python dict is
`{"time": t, "event": e}` with `e` recoverable via `LogEntry.event`. -/
structure LogEntry where
  time : String
  worker : String
  pieces : ℕ
  task_id : String
  description : String
deriving Repr, DecidableEq

/-- The f-string stored as the `event` field at line 291 of `app.py`. -/
def LogEntry.event (e : LogEntry) : String :=
  "Worker " ++ e.worker ++ " produced " ++ toString e.pieces ++ " pcs of "
    ++ e.task_id ++ " (" ++ e.description ++ ")"

/-! ## Python dict / lookup helpers -/

/-- Assignment `d[k] = v` on an insertion-ordered dict represented as an association
list: an existing key keeps its position and receives the new value, a new
key is appended. -/
def dictInsert (m : List (String × α)) (k : String) (v : α) : List (String × α) :=
  if m.any (fun p => p.1 == k) then
    m.map (fun p => if p.1 == k then (k, v) else p)
  else m ++ [(k, v)]

/-- Build a dict from a list of (key, value) pairs in order (used for
`task_sim_data_map` and `worker_sim_data_map`). -/
def buildDict (l : List (String × α)) : List (String × α) :=
  l.foldl (fun m p => dictInsert m p.1 p.2) []

/-- Dict lookup (`m[k]` on a key known to be present; `none` otherwise). -/
def dictGet? (m : List (String × α)) (k : String) : Option α :=
  (m.find? (fun p => p.1 == k)).map (·.2)

/-- Lookup `worker_skills.get(skill, 0)`: dict lookup with default `0`. -/
def skillGetD (skills : List (String × ℚ)) (k : String) : ℚ :=
  ((skills.find? (fun p => p.1 == k)).map (·.2)).getD 0

/-! ## Helper functions (`app.py` lines 183–205) -/

/-- Function `calculate_skill_match` (lines 183–191): fold over the requirement
dict accumulating `total_score` and `count` exactly as the Python loop
does, then divide (or fall back to `0.1`). -/
def calculate_skill_match (worker_skills : List (String × ℚ))
    (task_skill_requirements : List (String × ℚ)) : ℚ :=
  let r := task_skill_requirements.foldl
    (fun (acc : ℚ × ℕ) p =>
      if 0 < p.2 then
        (acc.1 + skillGetD worker_skills p.1 / max (1/100) p.2, acc.2 + 1)
      else acc)
    (0, 0)
  if 0 < r.2 then r.1 / (r.2 : ℚ) else 1/10

/-- Zero-padding used by the `:02d` format specifier (for values < 100
it agrees with Python's minimum-width semantics). -/
def pad2 (n : ℕ) : String :=
  if n < 10 then "0" ++ toString n else toString n

/-- Function `format_time` (lines 193–197): minutes since 08:00 to a clock label. -/
def format_time (minutes : ℕ) : String :=
  pad2 (8 + minutes / 60) ++ ":" ++ pad2 (minutes % 60)

/-- Function `check_requirements_met_for_qty` (lines 199–205): true when the
requirement list is empty, otherwise each requirement needs strictly
positive inventory (the `defaultdict` read of a missing key is `0`). -/
def check_requirements_met_for_qty (task : Task) (inventory : String → ℕ) : Bool :=
  if task.requirements.isEmpty then true
  else task.requirements.all (fun req => !(inventory req ≤ 0))

/-- Python's built-in `max(xs, key=k)` for a strict comparison `lt` on
keys: the first element attaining the maximal key (the running best is
replaced only on a strictly larger key); `none` on the empty list (where
Python raises `ValueError`). -/
def pyMaxBy {α β : Type _} (lt : β → β → Bool) (k : α → β) : List α → Option α
  | [] => none
  | x :: xs => some (xs.foldl (fun b a => if lt (k b) (k a) then a else b) x)

/-- Strict lexicographic order on the `(skill match, remaining_qty)` keys
used by the Python tuple comparison at line 263. -/
def keyLt (p q : ℚ × ℕ) : Prop := p.1 < q.1 ∨ (p.1 = q.1 ∧ p.2 < q.2)

instance (p q : ℚ × ℕ) : Decidable (keyLt p q) := by unfold keyLt; infer_instance

/-- One comparison step of `pyMaxBy` under the tuple order (Prop-level
form of the fold step, for reasoning). -/
def pyStep {α : Type _} (k : α → ℚ × ℕ) (b a : α) : α :=
  if keyLt (k b) (k a) then a else b

/-! ## Simulation state and the assignment engine (`assign_tasks`, lines 210–313)

Task instances are kept in an arena (`arena : List Task`); the Python
variables `available_tasks` and `task` hold references into it, modelled
as indices.  A slot's working state `WState` carries the arena, the live
`available_tasks` index list, the inventory and the log. -/

/-- The mutable state shared by the workers of one slot. -/
structure WState where
  arena : List Task
  avail : List ℕ
  inventory : String → ℕ
  log : List LogEntry

/-- Field `remaining_qty` of the instance at index `i` (0 if out of range). -/
def remAt (arena : List Task) (i : ℕ) : ℕ :=
  ((arena.get? i).map Task.remaining_qty).getD 0

/-- Field `task_id` of the instance at index `i`. -/
def taskIdAt (arena : List Task) (i : ℕ) : String :=
  ((arena.get? i).map Task.task_id).getD ""

/-- Field `description` of the instance at index `i`. -/
def descAt (arena : List Task) (i : ℕ) : String :=
  ((arena.get? i).map Task.description).getD ""

/-- Field `skill_requirements` of the instance at index `i`. -/
def skillReqAt (arena : List Task) (i : ℕ) : List (String × ℚ) :=
  ((arena.get? i).map Task.skill_requirements).getD []

/-- The within-slot production loop of one worker (`app.py` lines 272–294),
with fuel for the unbounded `while`.  Returns the updated shared state, the
worker's `pieces_total`, and the index held by the `task` variable when the
loop exits (whose description feeds the schedule cell at line 296).
`none` means the fuel ran out; the caller supplies more fuel than the loop
can consume (every pass either produces at least one piece, spending at
least one second of the remaining slot time, or switches away from an
exhausted task to one with positive remaining quantity, or exits). -/
def innerLoop (tlabel wname : String) :
    ℕ → WState → ℕ → ℕ → ℕ → Option (WState × ℕ × ℕ)
  | 0, _, _, _, _ => none
  | fuel + 1, s, tIdx, time_remaining, pieces =>
    if time_remaining = 0 then some (s, pieces, tIdx)
    else
      match s.arena.get? tIdx with
      | none => some (s, pieces, tIdx)
      | some task =>
        if task.remaining_qty = 0 then
          -- line 274: available_tasks = [t for t in available_tasks if t["remaining_qty"] > 0]
          let avail' := s.avail.filter (fun i => decide (0 < remAt s.arena i))
          let s' := { s with avail := avail' }
          -- line 277: task = max(available_tasks, key=lambda t: t["remaining_qty"])
          match pyMaxBy (fun a b => a < b) (fun i => remAt s'.arena i) avail' with
          | none => some (s', pieces, tIdx)
          | some j => innerLoop tlabel wname fuel s' j time_remaining pieces
        else
          let tpp := task.time_per_piece
          let max_pieces := min task.remaining_qty (time_remaining / tpp)
          if max_pieces = 0 then some (s, pieces, tIdx)
          else
            let arena' := s.arena.set tIdx
              { task with remaining_qty := task.remaining_qty - max_pieces }
            let inv' := fun k =>
              if k = task.task_id then s.inventory k + max_pieces else s.inventory k
            let entry : LogEntry := ⟨tlabel, wname, max_pieces, task.task_id, task.description⟩
            innerLoop tlabel wname fuel
              { s with arena := arena', inventory := inv', log := s.log ++ [entry] }
              tIdx (time_remaining - max_pieces * tpp) (pieces + max_pieces)

/-- A schedule cell: `(day, worker, slot)` key and summary string. -/
abbrev Cell := (ℕ × String × ℕ) × String

/-- The f-string written into the schedule at line 296. -/
def renderCell (dominant desc : String) (pieces : ℕ) : String :=
  "[" ++ dominant ++ "] " ++ desc ++ " (" ++ toString pieces ++ " pcs)"

/-- Lines 267–296 for a single entry of `worker_assignments`: run the
worker's production loop and write the worker's schedule cell. -/
def processWorker (innerFuel slotSec day slotIdx : ℕ) (tlabel : String)
    (acc : WState × List Cell) (wname : String) (tIdx : ℕ) :
    Option (WState × List Cell) :=
  let dominant := taskIdAt acc.1.arena tIdx
  match innerLoop tlabel wname innerFuel acc.1 tIdx slotSec 0 with
  | none => none
  | some (s', pieces, fIdx) =>
    some (s', acc.2 ++ [((day, wname, slotIdx), renderCell dominant (descAt s'.arena fIdx) pieces)])

/-- The key of the `max` call at line 263:
`(calculate_skill_match(worker.skills, task["skill_requirements"]),
task["remaining_qty"])`, compared as a Python tuple (lexicographically). -/
def selectionKey (w : Worker) (arena : List Task) (i : ℕ) : ℚ × ℕ :=
  (calculate_skill_match w.skills (skillReqAt arena i), remAt arena i)

/-- The selection at lines 261–264: Python `max` over `available_tasks`
under the strict lexicographic tuple order on `selectionKey`. -/
def selectForWorker (arena : List Task) (avail : List ℕ) (w : Worker) : Option ℕ :=
  pyMaxBy (fun p q => decide (keyLt p q)) (selectionKey w arena) avail

/-- Lines 257–265: one selection per worker, in the fixed worker order.
(The `if not available_tasks: break` guard can only fire when `avail` is
empty, in which case every selection is `none` and the list is empty too.) -/
def worker_assignments (workers : List Worker) (arena : List Task) (avail : List ℕ) :
    List (String × ℕ) :=
  workers.filterMap (fun w => (selectForWorker arena avail w).map (fun i => (w.name, i)))

/-- Sequential processing of the slot's assignments (the `for` loop at
line 267), threading the shared mutable state. -/
def runWorkers (innerFuel slotSec day slotIdx : ℕ) (tlabel : String)
    (assignments : List (String × ℕ)) (acc : WState × List Cell) :
    Option (WState × List Cell) :=
  assignments.foldlM
    (fun acc p => processWorker innerFuel slotSec day slotIdx tlabel acc p.1 p.2) acc

/-- The whole-run state of the simulation loop. -/
structure SimState where
  arena : List Task
  inventory : String → ℕ
  schedule : List Cell
  log : List LogEntry
  time : ℕ
  day : ℕ

/-- Constant `workday_minutes = 8 * 60` (line 212-213). -/
def workday_minutes : ℕ := 8 * 60

/-- Run-wide constants of one simulation. -/
structure Params where
  workers : List Worker
  slot_duration_minutes : ℕ
  cutoff : ℕ

/-- Line 252: `available_tasks`, as the ordered list of arena indices with
positive remaining quantity and requirements met. -/
def availableOf (arena : List Task) (inventory : String → ℕ) : List ℕ :=
  (List.range arena.length).filter (fun i =>
    decide (0 < remAt arena i) &&
      (((arena.get? i).map (fun t => check_requirements_met_for_qty t inventory)).getD false))

/-- Fuel given to each worker's within-slot loop: strictly more than the
loop can consume (see `innerLoop`). -/
def innerFuelFor (slotSec : ℕ) : ℕ := 2 * slotSec + 2

/-- The `while True` loop of `assign_tasks` (lines 244–300), with fuel.
Note the faithful reproduction of the control flow at lines 253–255: when
no task is available the `continue` statement skips the safety-cutoff test
at lines 299–300, so only slots in which some worker was assigned ever
check the cutoff. -/
def simLoop (P : Params) : ℕ → SimState → Option SimState
  | 0, _ => none
  | fuel + 1, s =>
    if s.arena.all (fun t => decide (t.remaining_qty ≤ 0)) then some s
    else
      let day := s.time / workday_minutes + 1
      let slotIdx := (s.time % workday_minutes) / P.slot_duration_minutes
      let s1 := { s with day := day }
      let avail := availableOf s1.arena s1.inventory
      if avail.isEmpty then
        simLoop P fuel { s1 with time := s1.time + P.slot_duration_minutes }
      else
        let slotSec := P.slot_duration_minutes * 60
        let assignments := worker_assignments P.workers s1.arena avail
        match runWorkers (innerFuelFor slotSec) slotSec day slotIdx (format_time s1.time)
            assignments (⟨s1.arena, avail, s1.inventory, s1.log⟩, s1.schedule) with
        | none => none
        | some ws =>
          let s2 : SimState :=
            ⟨ws.1.arena, ws.1.inventory, ws.2, ws.1.log, s1.time + P.slot_duration_minutes, day⟩
          if P.cutoff < s2.time then some s2 else simLoop P fuel s2

/-- Lines 224–232: the task-instance dict for one catalog row (note the
simulation data comes from `task_sim_data_map`, not from the row itself). -/
def taskInstance (sim : TaskSimulationData) (qty : ℕ) : Task where
  task_id := sim.task_id
  description := sim.description
  product := sim.product
  requirements := sim.requirements
  skill_requirements := sim.skill_requirements
  time_per_piece := sim.time_per_piece_seconds
  remaining_qty := qty

/-- Strict code-point lexicographic order on character lists — the string
comparison Python (and hence pandas) uses when sorting the `Result`
column. -/
def strLtL : List Char → List Char → Bool
  | [], [] => false
  | [], _ :: _ => true
  | _ :: _, [] => false
  | a :: as, b :: bs =>
    if a.val.toNat < b.val.toNat then true
    else if b.val.toNat < a.val.toNat then false
    else strLtL as bs

/-- Non-strict code-point lexicographic order on strings. -/
def strLeB (a b : String) : Bool := !(strLtL b.data a.data)

/-- Stable insertion into a list sorted by `result` (ascending). -/
def insertByResult (r : ProductRow) : List ProductRow → List ProductRow
  | [] => [r]
  | x :: xs => if strLeB r.result x.result then r :: x :: xs else x :: insertByResult r xs

/-- Pandas `sort_values(by="Result")` at line 221, as a stable ascending sort. -/
def sortByResult (l : List ProductRow) : List ProductRow :=
  l.foldr insertByResult []

/-- Lines 216 and 219–232: demand expansion into `all_task_instances`.
The `dictGet?` lookup mirrors `task_sim_data_map[row["Result"]]`; it always
succeeds because each filtered row's `Result` is a key of the dict. -/
def expandOrder (products_to_produce : List (String × ℕ))
    (products_df : List ProductRow) : List Task :=
  let task_sim_data_map :=
    buildDict (products_df.map (fun r => (r.result, TaskSimulationData.ofRow r)))
  products_to_produce.flatMap (fun pq =>
    (sortByResult (products_df.filter (fun r => r.product == pq.1))).filterMap
      (fun row => (dictGet? task_sim_data_map row.result).map
        (fun sim => taskInstance sim pq.2)))

/-- The dict returned by a successful run (lines 302–309). -/
structure SimResult where
  schedule : List Cell
  inventory : String → ℕ
  simulation_log : List LogEntry
  estimated_days : ℕ
  all_task_instances : List Task
  worker_sim_data_map : List (String × Worker)

/-- Function `assign_tasks` (lines 210–313).  `none` models the `except` branch
returning `None`: it is taken when `slot_duration_minutes = 0` (the
`workday_minutes // slot_duration_minutes` division at line 214 raises)
or when no worker row is given (the `total_seconds /
total_worker_seconds_per_day` division at line 236 raises); it also
results if the `while True` loop never exits (fuel exhaustion), which is
a real behaviour of this code (see the claim about termination).
The `math.ceil` of the float division at line 236 is modelled as exact
ceiling division. -/
def assign_tasks (products_to_produce : List (String × ℕ))
    (available_workers : List WorkerRow) (products_df : List ProductRow)
    (slot_duration_minutes : ℕ := 30) : Option SimResult :=
  if slot_duration_minutes = 0 then none
  else
    let worker_sim_data_map :=
      buildDict (available_workers.map (fun r => (r.worker, Worker.ofRow r)))
    let workers := worker_sim_data_map.map (·.2)
    let all_task_instances := expandOrder products_to_produce products_df
    let total_seconds :=
      (all_task_instances.map (fun t => t.time_per_piece * t.remaining_qty)).sum
    let total_worker_seconds_per_day := available_workers.length * workday_minutes * 60
    if total_worker_seconds_per_day = 0 then none
    else
      let estimated_days :=
        max 1 ((total_seconds + total_worker_seconds_per_day - 1) / total_worker_seconds_per_day)
      let cutoff := estimated_days * workday_minutes * 2
      let fuel := cutoff / slot_duration_minutes + 2
      (simLoop ⟨workers, slot_duration_minutes, cutoff⟩ fuel
          ⟨all_task_instances, fun _ => 0, [], [], 0, 1⟩).map
        (fun s => ⟨s.schedule, s.inventory, s.log, s.day, s.arena, worker_sim_data_map⟩)

/-! ## Run invariants (ghost state for the claim proofs)

`A0` always denotes the initial `all_task_instances` list produced by
`expandOrder`; the arena of any reachable state consists of the same
instances with evolved `remaining_qty` fields. -/

/-- Total piece count over all log entries for task id `k`.  This is both
the claimed reading of the inventory ledger and (provably) the value of
the running `inventory` dict. -/
def logInv (l : List LogEntry) (k : String) : ℕ :=
  ((l.filter (fun e => e.task_id == k)).map LogEntry.pieces).sum

/-- Forget the `remaining_qty` field (for stating that production changes
nothing else). -/
def stripRem (t : Task) : Task := { t with remaining_qty := 0 }

/-- The arena consists of the initial instances of `A0`, only their
`remaining_qty` fields having evolved. -/
def Tracks (A0 arena : List Task) : Prop :=
  arena.length = A0.length ∧
    ∀ i, (arena.get? i).map stripRem = (A0.get? i).map stripRem

/-- Requirement list of the instance at index `i`. -/
def reqsAt (arena : List Task) (i : ℕ) : List String :=
  ((arena.get? i).map Task.requirements).getD []

/-- Time per piece of the instance at index `i`. -/
def tppAt (arena : List Task) (i : ℕ) : ℕ :=
  ((arena.get? i).map Task.time_per_piece).getD 0

/-- Entry `e`, appended when the log so far was `l1`, came from some
instance of `A0` with the same task id whose prerequisites all had
positive inventory at that moment and whose time per piece fits in a
`slotSec`-second slot. -/
def EntryOk (A0 : List Task) (slotSec : ℕ) (l1 : List LogEntry) (e : LogEntry) : Prop :=
  ∃ j, j < A0.length ∧ taskIdAt A0 j = e.task_id ∧ tppAt A0 j ≤ slotSec ∧
    0 < e.pieces ∧ ∀ req ∈ reqsAt A0 j, 0 < logInv l1 req

/-- Every entry of the log satisfies `EntryOk` for its own prefix. -/
def GoodLog (A0 : List Task) (slotSec : ℕ) (log : List LogEntry) : Prop :=
  ∀ l1 e l2, log = l1 ++ e :: l2 → EntryOk A0 slotSec l1 e

/-- All requirements of instance `j` have positive inventory under `inv`
(the any-produced gating policy). -/
def ReqsOk (A0 : List Task) (inv : String → ℕ) (j : ℕ) : Prop :=
  ∀ req ∈ reqsAt A0 j, 0 < inv req

/-- The uniqueness-free part of the outer loop invariant. -/
def OuterInv (A0 : List Task) (slotSec : ℕ) (s : SimState) : Prop :=
  Tracks A0 s.arena ∧
  (∀ k, s.inventory k = logInv s.log k) ∧
  GoodLog A0 slotSec s.log ∧
  (∀ i, slotSec < tppAt A0 i → remAt s.arena i = remAt A0 i)

/-- Conservation: produced pieces plus remaining quantity equals the
initial quantity, per instance.  Only an invariant when task ids are
pairwise distinct. -/
def ConsInv (A0 : List Task) (arena : List Task) (inv : String → ℕ) : Prop :=
  ∀ i, i < A0.length → remAt arena i + inv (taskIdAt A0 i) = remAt A0 i

/-- Each task id belongs to exactly one task instance. -/
def idsUnique (A0 : List Task) : Prop := (A0.map Task.task_id).Nodup

/-! ## Concrete scenario data used by the claim theorems -/

/-- A worker row with full Bending proficiency. -/
def wRowW : WorkerRow := ⟨"W", 100, 50, 50, 50, 50, 50⟩

/-- A second worker row with the same skills. -/
def wRowV : WorkerRow := ⟨"V", 100, 50, 50, 50, 50, 50⟩

/-- Catalog row: task T1 of product P, no prerequisites, 60 s/piece. -/
def rowCut : ProductRow := ⟨"P", "cut", "T1", [], 100, 0, 0, 0, 0, 0, 60⟩

/-- Catalog row: task T2 of product P requiring T1, 60 s/piece. -/
def rowGlue : ProductRow := ⟨"P", "glue", "T2", ["T1"], 0, 100, 0, 0, 0, 0, 60⟩

/-- Catalog row: a second prerequisite-free task of product P with a
different description, for the mid-slot switching scenario. -/
def rowFold : ProductRow := ⟨"P", "fold", "T2", [], 100, 0, 0, 0, 0, 0, 60⟩

/-- Catalog row whose single requirement `T0` is produced by no task:
its instance can never become available. -/
def rowBlocked : ProductRow := ⟨"P", "cut", "T1", ["T0"], 100, 0, 0, 0, 0, 0, 60⟩

/-- Catalog row needing 2000 s per piece — more than a 30-minute slot. -/
def rowSlow : ProductRow := ⟨"P", "mill", "T1", [], 100, 0, 0, 0, 0, 0, 2000⟩

/-- Fallback result for projecting out of the `Option`. -/
def defaultResult : SimResult := ⟨[], fun _ => 0, [], 0, [], []⟩

/-- Initial instances of the one-task order (P, qty 2). -/
def arenaCut : List Task := expandOrder [("P", 2)] [rowCut]

/-- The completed run of the one-task order. -/
def resCut : SimResult := (assign_tasks [("P", 2)] [wRowW] [rowCut] 30).getD defaultResult

/-- Initial instances of the T1-then-T2 chain order. -/
def arenaChain : List Task := expandOrder [("P", 1)] [rowCut, rowGlue]

/-- The completed run of the chain order. -/
def resChain : SimResult := (assign_tasks [("P", 1)] [wRowW] [rowCut, rowGlue] 30).getD defaultResult

/-- Initial instances of the two independent-task order (mid-slot switch). -/
def arenaSwitch : List Task := expandOrder [("P", 1)] [rowCut, rowFold]

/-- The completed run with a mid-slot task switch. -/
def resSwitch : SimResult := (assign_tasks [("P", 1)] [wRowW] [rowCut, rowFold] 30).getD defaultResult

/-- Initial instances of the slow-task order. -/
def arenaSlow : List Task := expandOrder [("P", 1)] [rowSlow]

/-- The run that exceeds the safety cutoff with work remaining. -/
def resSlow : SimResult := (assign_tasks [("P", 1)] [wRowW] [rowSlow] 30).getD defaultResult

/-- Initial instances of the unsatisfiable-prerequisite order. -/
def arenaBlocked : List Task := expandOrder [("P", 1)] [rowBlocked]

/-- Parameters of the blocked run (cutoff `1 * 480 * 2`). -/
def blockedParams : Params := ⟨[Worker.ofRow wRowW], 30, 960⟩

/-- Initial instances for the shared-assignment scenario (qty 5 each). -/
def arenaShare : List Task := expandOrder [("P", 5)] [rowCut, rowFold]

/-! ## Helper lemmas -/

theorem keyLt_irrefl (p : ℚ × ℕ) : ¬ keyLt p p := by
  simp [keyLt]

theorem keyLt_trans {p q r : ℚ × ℕ} (h1 : keyLt p q) (h2 : keyLt q r) : keyLt p r := by
  rcases h1 with h1 | ⟨e1, h1⟩ <;> rcases h2 with h2 | ⟨e2, h2⟩
  · exact Or.inl (h1.trans h2)
  · exact Or.inl (e2 ▸ h1)
  · exact Or.inl (e1 ▸ h2)
  · exact Or.inr ⟨e1.trans e2, h1.trans h2⟩

theorem keyLt_total (p q : ℚ × ℕ) : keyLt p q ∨ p = q ∨ keyLt q p := by
  rcases lt_trichotomy p.1 q.1 with h | h | h
  · exact Or.inl (Or.inl h)
  · rcases lt_trichotomy p.2 q.2 with h2 | h2 | h2
    · exact Or.inl (Or.inr ⟨h, h2⟩)
    · exact Or.inr (Or.inl (Prod.ext h h2))
    · exact Or.inr (Or.inr (Or.inr ⟨h.symm, h2⟩))
  · exact Or.inr (Or.inr (Or.inl h))

theorem keyLt_asymm {p q : ℚ × ℕ} (h : keyLt p q) : ¬ keyLt q p :=
  fun h' => keyLt_irrefl p (keyLt_trans h h')

theorem keyLt_of_not_of_ne {p q : ℚ × ℕ} (h : ¬ keyLt p q) (hne : p ≠ q) : keyLt q p := by
  rcases keyLt_total p q with h1 | h1 | h1
  · exact absurd h1 h
  · exact absurd h1 hne
  · exact h1

/-- The accumulator fold of `calculate_skill_match` computes the sum of
the per-skill scores over the positive requirements and their count. -/
theorem skill_fold_spec (ws ts : List (String × ℚ)) (a : ℚ) (n : ℕ) :
    ts.foldl
      (fun (acc : ℚ × ℕ) p =>
        if 0 < p.2 then
          (acc.1 + skillGetD ws p.1 / max (1/100) p.2, acc.2 + 1)
        else acc)
      (a, n)
      = (a + ((ts.filter (fun p => decide (0 < p.2))).map
            (fun p => skillGetD ws p.1 / max (1/100) p.2)).sum,
         n + (ts.filter (fun p => decide (0 < p.2))).length) := by
  induction ts generalizing a n with
  | nil => simp
  | cons x xs ih =>
    by_cases h : 0 < x.2
    · rw [List.foldl_cons, if_pos h, ih, List.filter_cons, if_pos (by simpa using h),
        List.map_cons, List.sum_cons, List.length_cons, Prod.mk.injEq]
      exact ⟨by ring, by omega⟩
    · rw [List.foldl_cons, if_neg h, ih, List.filter_cons, if_neg (by simpa using h)]

/-- The fold of `pyMaxBy` only ever returns the seed or a list element. -/
theorem pyFold_mem {α β : Type _} (lt : β → β → Bool) (k : α → β) :
    ∀ (xs : List α) (b : α),
      xs.foldl (fun b a => if lt (k b) (k a) then a else b) b ∈ b :: xs := by
  intro xs
  induction xs with
  | nil => intro b; simp
  | cons a rest ih =>
    intro b
    rw [List.foldl_cons]
    by_cases h : lt (k b) (k a) = true
    · rw [if_pos h]
      exact List.mem_cons_of_mem _ (ih a)
    · rw [if_neg h]
      rcases List.mem_cons.mp (ih b) with h1 | h1
      · rw [h1]; exact List.mem_cons_self _ _
      · exact List.mem_cons_of_mem _ (List.mem_cons_of_mem _ h1)

/-- Python `max` returns an element of its argument. -/
theorem pyMaxBy_mem {α β : Type _} (lt : β → β → Bool) (k : α → β) (l : List α) (x : α)
    (h : pyMaxBy lt k l = some x) : x ∈ l := by
  cases l with
  | nil => cases h
  | cons b xs =>
    have := pyFold_mem lt k xs b
    rw [show x = xs.foldl (fun b a => if lt (k b) (k a) then a else b) b from
      (Option.some.injEq _ _).mp h.symm]
    exact this

/-- The fold step of `pyMaxBy` under the decidable tuple order is
`pyStep`. -/
theorem pyMaxBy_cons_eq {α : Type _} (k : α → ℚ × ℕ) (x : α) (xs : List α) :
    pyMaxBy (fun p q => decide (keyLt p q)) k (x :: xs) = some (xs.foldl (pyStep k) x) := by
  unfold pyMaxBy
  have hstep : (fun (b a : α) =>
      if (fun p q => decide (keyLt p q)) (k b) (k a) = true then a else b) = pyStep k := by
    funext b a
    by_cases h : keyLt (k b) (k a) <;> simp [pyStep, h]
  rw [hstep]

/-- Full characterization of the `pyStep` fold: the result splits the
candidate list so that everything strictly before it has a strictly
smaller key and nothing after it has a strictly larger key — i.e. it is
the first maximizer, ties going to the earlier element. -/
theorem pyFold_first_max {α : Type _} (k : α → ℚ × ℕ) :
    ∀ (xs : List α) (b : α),
      ∃ l1 l2,
        b :: xs = l1 ++ (xs.foldl (pyStep k) b) :: l2 ∧
        (∀ y ∈ l1, keyLt (k y) (k (xs.foldl (pyStep k) b))) ∧
        (∀ y ∈ l2, ¬ keyLt (k (xs.foldl (pyStep k) b)) (k y)) := by
  intro xs
  induction xs with
  | nil => intro b; exact ⟨[], [], rfl, by simp, by simp⟩
  | cons a rest ih =>
    intro b
    rw [List.foldl_cons]
    by_cases h : keyLt (k b) (k a)
    · rw [show pyStep k b a = a from if_pos h]
      obtain ⟨l1, l2, hsplit, hlt, hnlt⟩ := ih a
      have hbr : keyLt (k b) (k (rest.foldl (pyStep k) a)) := by
        cases l1 with
        | nil =>
          have ha : a = rest.foldl (pyStep k) a := by
            simpa using congrArg (fun l => l.head?) hsplit
          rw [← ha]; exact h
        | cons z zs =>
          have hz : a = z := by simpa using congrArg (fun l => l.head?) hsplit
          exact keyLt_trans h (hz ▸ hlt z (List.mem_cons_self _ _))
      exact ⟨b :: l1, l2, by rw [List.cons_append, ← hsplit],
        fun y hy => (List.mem_cons.mp hy).elim (fun e => by rw [e]; exact hbr) (hlt y), hnlt⟩
    · rw [show pyStep k b a = b from if_neg h]
      obtain ⟨l1, l2, hsplit, hlt, hnlt⟩ := ih b
      cases l1 with
      | nil =>
        have hrb : b = rest.foldl (pyStep k) b := by
          simpa using congrArg (fun l => l.head?) hsplit
        have hl2 : rest = l2 := by
          simpa using congrArg (fun l => l.tail) hsplit
        refine ⟨[], a :: rest, by simp [← hrb], by simp, ?_⟩
        intro y hy
        rcases List.mem_cons.mp hy with rfl | hy
        · rw [← hrb]; exact h
        · exact hnlt y (hl2 ▸ hy)
      | cons z zs =>
        have hz : b = z := by simpa using congrArg (fun l => l.head?) hsplit
        have hrest : rest = zs ++ (rest.foldl (pyStep k) b) :: l2 := by
          simpa using congrArg (fun l => l.tail) hsplit
        have hbar : keyLt (k b) (k (rest.foldl (pyStep k) b)) :=
          hz.symm ▸ hlt z (List.mem_cons_self _ _)
        have har : keyLt (k a) (k (rest.foldl (pyStep k) b)) := by
          rcases keyLt_total (k b) (k a) with h1 | h1 | h1
          · exact absurd h1 h
          · rw [← h1]; exact hbar
          · exact keyLt_trans h1 hbar
        refine ⟨b :: a :: zs, l2, ?_, ?_, hnlt⟩
        · rw [List.cons_append, List.cons_append, ← hrest]
        · intro y hy
          rcases List.mem_cons.mp hy with rfl | hy
          · exact hbar
          rcases List.mem_cons.mp hy with rfl | hy
          · exact har
          · exact hlt y (List.mem_cons_of_mem z hy)

/-! ## Invariant helper lemmas -/

theorem logInv_nil (k : String) : logInv [] k = 0 := rfl

theorem logInv_append (l1 l2 : List LogEntry) (k : String) :
    logInv (l1 ++ l2) k = logInv l1 k + logInv l2 k := by
  unfold logInv
  rw [List.filter_append, List.map_append, List.sum_append]

theorem logInv_single (e : LogEntry) (k : String) :
    logInv [e] k = if e.task_id = k then e.pieces else 0 := by
  unfold logInv
  by_cases h : e.task_id = k <;> simp [List.filter_cons, h]

theorem logInv_eq_zero {log : List LogEntry} {k : String}
    (h : ∀ e ∈ log, e.task_id ≠ k) : logInv log k = 0 := by
  induction log with
  | nil => rfl
  | cons e l ih =>
    rw [show e :: l = [e] ++ l from rfl, logInv_append, logInv_single,
      if_neg (h e (List.mem_cons_self _ _)), ih (fun x hx => h x (List.mem_cons_of_mem _ hx))]

theorem Tracks.refl (A0 : List Task) : Tracks A0 A0 := ⟨rfl, fun _ => rfl⟩

/-- Any field of a task that `stripRem` preserves agrees between a
tracking arena and the initial instances. -/
theorem Tracks.proj_eq {A0 arena : List Task} (h : Tracks A0 arena) (i : ℕ)
    {β : Type _} (f : Task → β) (d : β) (hf : ∀ t, f (stripRem t) = f t) :
    ((arena.get? i).map f).getD d = ((A0.get? i).map f).getD d := by
  have h2 := h.2 i
  cases ha : arena.get? i with
  | none =>
    cases hb : A0.get? i with
    | none => rfl
    | some b => rw [ha, hb] at h2; cases h2
  | some a =>
    cases hb : A0.get? i with
    | none => rw [ha, hb] at h2; cases h2
    | some b =>
      rw [ha, hb] at h2
      have hab : stripRem a = stripRem b := by injection h2
      have : f a = f b := by rw [← hf a, ← hf b, hab]
      simp [this]

theorem Tracks.taskIdAt_eq {A0 arena : List Task} (h : Tracks A0 arena) (i : ℕ) :
    taskIdAt arena i = taskIdAt A0 i :=
  Tracks.proj_eq h i Task.task_id "" (fun _ => rfl)

theorem Tracks.reqsAt_eq {A0 arena : List Task} (h : Tracks A0 arena) (i : ℕ) :
    reqsAt arena i = reqsAt A0 i :=
  Tracks.proj_eq h i Task.requirements [] (fun _ => rfl)

theorem Tracks.tppAt_eq {A0 arena : List Task} (h : Tracks A0 arena) (i : ℕ) :
    tppAt arena i = tppAt A0 i :=
  Tracks.proj_eq h i Task.time_per_piece 0 (fun _ => rfl)

/-- Setting only the remaining quantity of an existing instance preserves
tracking. -/
theorem Tracks.set_rem {A0 arena : List Task} (h : Tracks A0 arena) {i : ℕ} {task : Task}
    (ha : arena.get? i = some task) (q : ℕ) :
    Tracks A0 (arena.set i { task with remaining_qty := q }) := by
  refine ⟨by rw [List.length_set]; exact h.1, fun j => ?_⟩
  by_cases hj : j = i
  · subst hj
    have hlt : j < arena.length := by
      rw [List.get?_eq_getElem?] at ha
      exact (List.getElem?_eq_some.mp ha).1
    have h2 := h.2 j
    rw [ha] at h2
    rw [List.get?_eq_getElem?, List.getElem?_set_eq_of_lt _ hlt, ← h2]
    rfl
  · have h2 := h.2 j
    rw [List.get?_eq_getElem?, List.getElem?_set_ne (fun he => hj he.symm),
      ← List.get?_eq_getElem?]
    exact h2

theorem remAt_set_self {arena : List Task} {i : ℕ} {task : Task}
    (ha : arena.get? i = some task) (q : ℕ) :
    remAt (arena.set i { task with remaining_qty := q }) i = q := by
  have hlt : i < arena.length := by
    rw [List.get?_eq_getElem?] at ha
    exact (List.getElem?_eq_some.mp ha).1
  unfold remAt
  rw [List.get?_eq_getElem?, List.getElem?_set_eq_of_lt _ hlt]
  rfl

theorem remAt_set_other {arena : List Task} {i j : ℕ} (h : i ≠ j) (v : Task) :
    remAt (arena.set i v) j = remAt arena j := by
  unfold remAt
  rw [List.get?_eq_getElem?, List.getElem?_set_ne h, ← List.get?_eq_getElem?]

/-- A production step (which only lowers a remaining quantity) never
changes any instance's description. -/
theorem descAt_set_rem {arena : List Task} {i : ℕ} {task : Task}
    (ha : arena.get? i = some task) (q : ℕ) (j : ℕ) :
    descAt (arena.set i { task with remaining_qty := q }) j = descAt arena j := by
  by_cases hj : i = j
  · subst hj
    have hlt : i < arena.length := by
      rw [List.get?_eq_getElem?] at ha
      exact (List.getElem?_eq_some.mp ha).1
    unfold descAt
    rw [List.get?_eq_getElem?, List.getElem?_set_eq_of_lt _ hlt, ha]
    rfl
  · unfold descAt
    rw [List.get?_eq_getElem?, List.getElem?_set_ne hj, ← List.get?_eq_getElem?]

theorem goodLog_nil (A0 : List Task) (slotSec : ℕ) : GoodLog A0 slotSec [] := by
  intro l1 e l2 h
  exact absurd h.symm (List.append_ne_nil_of_right_ne_nil l1 (List.cons_ne_nil e l2))

/-- Appending one entry that is `EntryOk` for the current log preserves
`GoodLog`. -/
theorem GoodLog.append_one {A0 : List Task} {slotSec : ℕ} {log : List LogEntry}
    (hg : GoodLog A0 slotSec log) {e : LogEntry} (he : EntryOk A0 slotSec log e) :
    GoodLog A0 slotSec (log ++ [e]) := by
  intro l1 x l2 hsplit
  rcases List.eq_nil_or_concat l2 with rfl | ⟨l2', b, rfl⟩
  · obtain ⟨h1, h2⟩ := List.append_inj' hsplit rfl
    obtain rfl : e = x := by injection h2
    exact h1 ▸ he
  · rw [List.concat_eq_append] at hsplit
    have hsplit' : log ++ [e] = (l1 ++ x :: l2') ++ [b] := by
      rw [hsplit]; simp
    obtain ⟨h1, _⟩ := List.append_inj' hsplit' rfl
    exact hg l1 x l2' h1

/-- Membership in the slot's available list gives the instance, its
positive remaining quantity and a passed requirements check. -/
theorem availableOf_mem {arena : List Task} {inv : String → ℕ} {j : ℕ}
    (h : j ∈ availableOf arena inv) :
    ∃ t, arena.get? j = some t ∧ 0 < t.remaining_qty ∧
      check_requirements_met_for_qty t inv = true := by
  unfold availableOf at h
  obtain ⟨hjr, hp⟩ := List.mem_filter.mp h
  have hj : j < arena.length := List.mem_range.mp hjr
  obtain ⟨t, ht⟩ : ∃ t, arena.get? j = some t := by
    rw [List.get?_eq_getElem?]
    exact ⟨arena[j], List.getElem?_eq_some.mpr ⟨hj, rfl⟩⟩
  obtain ⟨h1, h2⟩ := Bool.and_eq_true_iff.mp hp
  refine ⟨t, ht, ?_, ?_⟩
  · have : (0 : ℕ) < remAt arena j := of_decide_eq_true h1
    rw [remAt, ht] at this
    simpa using this
  · rw [ht] at h2
    simpa using h2

/-- The Bool requirements check holds exactly when every requirement has
strictly positive inventory (shared by the eligibility claim and the
gating invariant). -/
theorem check_requirements_iff (task : Task) (inventory : String → ℕ) :
    check_requirements_met_for_qty task inventory = true ↔
      ∀ req ∈ task.requirements, 0 < inventory req := by
  unfold check_requirements_met_for_qty
  cases h : task.requirements with
  | nil => simp [h]
  | cons r l =>
    simp only [h, List.isEmpty_cons, if_neg Bool.false_ne_true, List.all_eq_true]
    constructor
    · intro hall req hreq
      have := hall req hreq
      simpa [Nat.pos_iff_ne_zero, Nat.le_zero] using this
    · intro hall req hreq
      have := hall req hreq
      simpa [Nat.pos_iff_ne_zero, Nat.le_zero] using this

/-- Unique task ids make the index recoverable from the id. -/
theorem idsUnique_inj {A0 : List Task} (h : idsUnique A0) {i j : ℕ}
    (hi : i < A0.length) (hj : j < A0.length)
    (hid : taskIdAt A0 i = taskIdAt A0 j) : i = j := by
  apply @List.get?_inj i String (A0.map Task.task_id) j (by simpa using hi) h
  obtain ⟨ti, hti⟩ : ∃ t, A0.get? i = some t := by
    rw [List.get?_eq_getElem?]
    exact ⟨A0[i], List.getElem?_eq_some.mpr ⟨hi, rfl⟩⟩
  obtain ⟨tj, htj⟩ : ∃ t, A0.get? j = some t := by
    rw [List.get?_eq_getElem?]
    exact ⟨A0[j], List.getElem?_eq_some.mpr ⟨hj, rfl⟩⟩
  rw [taskIdAt, taskIdAt, hti, htj] at hid
  rw [List.get?_eq_getElem?, List.get?_eq_getElem?, List.getElem?_map, List.getElem?_map,
    ← List.get?_eq_getElem?, ← List.get?_eq_getElem?, hti, htj]
  simpa using hid

/-- Master invariant preservation through one worker's within-slot loop:
tracking of the initial instances, shrinking availability, inventory
monotonicity, untouchability of instances too slow for the slot, the
inventory–log correspondence, the gating property of the log, and (under
unique ids) conservation of pieces. -/
theorem innerLoop_invariant (A0 : List Task) (slotSec : ℕ) (inv0 : String → ℕ)
    (tlabel wname : String) :
    ∀ (fuel : ℕ) (s : WState) (tIdx T p : ℕ) (out : WState × ℕ × ℕ),
      innerLoop tlabel wname fuel s tIdx T p = some out →
      T ≤ slotSec →
      Tracks A0 s.arena →
      ReqsOk A0 inv0 tIdx →
      (∀ j ∈ s.avail, ReqsOk A0 inv0 j) →
      (∀ k, inv0 k ≤ s.inventory k) →
      (∀ k, s.inventory k = logInv s.log k) →
      GoodLog A0 slotSec s.log →
      (Tracks A0 out.1.arena ∧
        (∀ j ∈ out.1.avail, j ∈ s.avail) ∧
        (∀ k, s.inventory k ≤ out.1.inventory k) ∧
        (∀ i, slotSec < tppAt A0 i → remAt out.1.arena i = remAt s.arena i) ∧
        (∀ k, out.1.inventory k = logInv out.1.log k) ∧
        GoodLog A0 slotSec out.1.log ∧
        (idsUnique A0 → ConsInv A0 s.arena s.inventory →
          ConsInv A0 out.1.arena out.1.inventory)) := by
  intro fuel
  induction fuel with
  | zero => intro s tIdx T p out h; cases h
  | succ n ih =>
    intro s tIdx T p out h hT htr hidx havail hmono hcorr hgood
    rw [innerLoop] at h
    split at h
    · cases h
      exact ⟨htr, fun j hj => hj, fun k => le_rfl, fun i _ => rfl, hcorr, hgood, fun _ hc => hc⟩
    · split at h
      · cases h
        exact ⟨htr, fun j hj => hj, fun k => le_rfl, fun i _ => rfl, hcorr, hgood, fun _ hc => hc⟩
      · rename_i task harena
        split at h
        · -- current task exhausted: filter the shared list and re-pick
          dsimp only at h
          split at h
          · cases h
            refine ⟨htr, ?_, fun k => le_rfl, fun i _ => rfl, hcorr, hgood, fun _ hc => hc⟩
            intro j hj
            exact (List.mem_filter.mp hj).1
          · rename_i j hmax
            have hjmem : j ∈ s.avail :=
              (List.mem_filter.mp (pyMaxBy_mem _ _ _ _ hmax)).1
            obtain ⟨htr', hsub, hmono', hrem', hcorr', hgood', hcons'⟩ :=
              ih _ j T p out h hT htr (havail j hjmem)
                (fun j' hj' => havail j' (List.mem_filter.mp hj').1) hmono hcorr hgood
            exact ⟨htr', fun j' hj' => (List.mem_filter.mp (hsub j' hj')).1,
              hmono', hrem', hcorr', hgood', hcons'⟩
        · -- production
          rename_i hrem
          dsimp only at h
          split at h
          · cases h
            exact ⟨htr, fun j hj => hj, fun k => le_rfl, fun i _ => rfl, hcorr, hgood, fun _ hc => hc⟩
          · rename_i hmp
            have hlen : tIdx < A0.length := by
              rw [← htr.1]
              rw [List.get?_eq_getElem?] at harena
              exact (List.getElem?_eq_some.mp harena).1
            have hid : taskIdAt A0 tIdx = task.task_id := by
              rw [← htr.taskIdAt_eq tIdx, taskIdAt, harena]
              rfl
            have htpp0 : tppAt A0 tIdx = task.time_per_piece := by
              rw [← htr.tppAt_eq tIdx, tppAt, harena]
              rfl
            have hreqs0 : reqsAt A0 tIdx = task.requirements := by
              rw [← htr.reqsAt_eq tIdx, reqsAt, harena]
              rfl
            have hrem0 : remAt s.arena tIdx = task.remaining_qty := by
              rw [remAt, harena]
              rfl
            have htpp_le : task.time_per_piece ≤ T := by
              by_contra hlt
              push_neg at hlt
              exact hmp (by rw [Nat.div_eq_of_lt hlt, Nat.min_zero])
            have hmple : min task.remaining_qty (T / task.time_per_piece) ≤ task.remaining_qty :=
              min_le_left _ _
            -- invariants for the post-production state
            have htr2 : Tracks A0 (s.arena.set tIdx
                { task with remaining_qty :=
                    task.remaining_qty - min task.remaining_qty (T / task.time_per_piece) }) :=
              htr.set_rem harena _
            have hcorr2 : ∀ k,
                (fun k => if k = task.task_id
                  then s.inventory k + min task.remaining_qty (T / task.time_per_piece)
                  else s.inventory k) k
                = logInv (s.log ++
                    [⟨tlabel, wname, min task.remaining_qty (T / task.time_per_piece),
                      task.task_id, task.description⟩]) k := by
              intro k
              dsimp only
              rw [logInv_append, logInv_single]
              by_cases hk : k = task.task_id
              · rw [if_pos hk, if_pos hk.symm, hcorr k]
              · rw [if_neg hk, if_neg (fun he => hk he.symm), hcorr k, Nat.add_zero]
            have hgood2 : GoodLog A0 slotSec (s.log ++
                [⟨tlabel, wname, min task.remaining_qty (T / task.time_per_piece),
                  task.task_id, task.description⟩]) := by
              refine hgood.append_one ⟨tIdx, hlen, ?_, ?_, Nat.pos_of_ne_zero hmp, ?_⟩
              · rw [hid]
              · rw [htpp0]; exact le_trans htpp_le hT
              · intro req hreq
                rw [← hcorr req]
                exact lt_of_lt_of_le (hidx req hreq) (hmono req)
            have hmono2 : ∀ k, inv0 k ≤ (fun k => if k = task.task_id
                then s.inventory k + min task.remaining_qty (T / task.time_per_piece)
                else s.inventory k) k := by
              intro k
              dsimp only
              by_cases hk : k = task.task_id
              · rw [if_pos hk]; exact le_trans (hmono k) (Nat.le_add_right _ _)
              · rw [if_neg hk]; exact hmono k
            obtain ⟨htr', hsub, hmono', hrem', hcorr', hgood', hcons'⟩ :=
              ih _ tIdx _ _ out h (le_trans (Nat.sub_le _ _) hT) htr2 hidx havail
                hmono2 hcorr2 hgood2
            refine ⟨htr', hsub, ?_, ?_, hcorr', hgood', ?_⟩
            · intro k
              refine le_trans ?_ (hmono' k)
              dsimp only
              by_cases hk : k = task.task_id
              · rw [if_pos hk]; exact Nat.le_add_right _ _
              · rw [if_neg hk]
            · intro i hbig
              rw [hrem' i hbig]
              have hne : tIdx ≠ i := by
                intro he
                rw [← he, htpp0] at hbig
                exact absurd (le_trans htpp_le hT) (not_le.mpr hbig)
              exact remAt_set_other hne _
            · intro huniq hc
              refine hcons' huniq ?_
              intro i hi
              by_cases hie : i = tIdx
              · subst hie
                rw [remAt_set_self harena, hid]
                dsimp only
                rw [if_pos rfl]
                have hci := hc i hi
                rw [hrem0, hid] at hci
                omega
              · have hkne : taskIdAt A0 i ≠ task.task_id := by
                  rw [← hid]
                  intro he
                  exact hie (idsUnique_inj huniq hi hlen he)
                rw [remAt_set_other (fun he => hie he.symm)]
                dsimp only
                rw [if_neg hkne]
                exact hc i hi

/-- Assignments only reference indices from the slot's available list. -/
theorem worker_assignments_mem {workers : List Worker} {arena : List Task}
    {avail : List ℕ} {q : String × ℕ}
    (h : q ∈ worker_assignments workers arena avail) : q.2 ∈ avail := by
  unfold worker_assignments at h
  obtain ⟨w, _, hq⟩ := List.mem_filterMap.mp h
  cases hsel : selectForWorker arena avail w with
  | none => rw [hsel] at hq; cases hq
  | some i =>
    rw [hsel] at hq
    cases hq
    exact pyMaxBy_mem _ _ _ _ hsel

/-- An index of the slot's available list has all its requirements met by
the slot-start inventory. -/
theorem availableOf_reqsOk {A0 arena : List Task} {inv : String → ℕ}
    (htr : Tracks A0 arena) {j : ℕ} (h : j ∈ availableOf arena inv) :
    ReqsOk A0 inv j := by
  obtain ⟨t, ht, _, hchk⟩ := availableOf_mem h
  intro req hreq
  rw [← htr.reqsAt_eq j, reqsAt, ht] at hreq
  exact (check_requirements_iff t inv).mp hchk req (by simpa using hreq)

/-- The within-slot invariant lifted over the sequential processing of all
assigned workers of one slot. -/
theorem runWorkers_invariant (A0 : List Task) (inv0 : String → ℕ)
    (innerFuel slotSec day slotIdx : ℕ) (tlabel : String) :
    ∀ (assignments : List (String × ℕ)) (acc : WState × List Cell)
      (out : WState × List Cell),
      runWorkers innerFuel slotSec day slotIdx tlabel assignments acc = some out →
      Tracks A0 acc.1.arena →
      (∀ q ∈ assignments, ReqsOk A0 inv0 q.2) →
      (∀ j ∈ acc.1.avail, ReqsOk A0 inv0 j) →
      (∀ k, inv0 k ≤ acc.1.inventory k) →
      (∀ k, acc.1.inventory k = logInv acc.1.log k) →
      GoodLog A0 slotSec acc.1.log →
      (Tracks A0 out.1.arena ∧
        (∀ j ∈ out.1.avail, j ∈ acc.1.avail) ∧
        (∀ k, acc.1.inventory k ≤ out.1.inventory k) ∧
        (∀ i, slotSec < tppAt A0 i → remAt out.1.arena i = remAt acc.1.arena i) ∧
        (∀ k, out.1.inventory k = logInv out.1.log k) ∧
        GoodLog A0 slotSec out.1.log ∧
        (idsUnique A0 → ConsInv A0 acc.1.arena acc.1.inventory →
          ConsInv A0 out.1.arena out.1.inventory)) := by
  intro assignments
  induction assignments with
  | nil =>
    intro acc out h htr _ havail hmono hcorr hgood
    cases h
    exact ⟨htr, fun j hj => hj, fun k => le_rfl, fun i _ => rfl, hcorr, hgood, fun _ hc => hc⟩
  | cons q rest ihq =>
    intro acc out h htr hassign havail hmono hcorr hgood
    unfold runWorkers at h
    rw [List.foldlM_cons] at h
    cases hpw : processWorker innerFuel slotSec day slotIdx tlabel acc q.1 q.2 with
    | none => rw [hpw] at h; cases h
    | some acc1 =>
      rw [hpw] at h
      unfold processWorker at hpw
      cases hil : innerLoop tlabel q.1 innerFuel acc.1 q.2 slotSec 0 with
      | none => rw [hil] at hpw; cases hpw
      | some r =>
        rw [hil] at hpw
        cases hpw
        obtain ⟨htr1, hsub1, hmono1, hrem1, hcorr1, hgood1, hcons1⟩ :=
          innerLoop_invariant A0 slotSec inv0 tlabel q.1 innerFuel acc.1 q.2 slotSec 0 r hil
            le_rfl htr (hassign q (List.mem_cons_self _ _)) havail hmono hcorr hgood
        obtain ⟨htr2, hsub2, hmono2, hrem2, hcorr2, hgood2, hcons2⟩ :=
          ihq _ out h htr1 (fun q' hq' => hassign q' (List.mem_cons_of_mem _ hq'))
            (fun j hj => havail j (hsub1 j hj)) (fun k => le_trans (hmono k) (hmono1 k))
            hcorr1 hgood1
        exact ⟨htr2, fun j hj => hsub1 j (hsub2 j hj),
          fun k => le_trans (hmono1 k) (hmono2 k),
          fun i hb => (hrem2 i hb).trans (hrem1 i hb), hcorr2, hgood2,
          fun hu hc => hcons2 hu (hcons1 hu hc)⟩

/-- The run-wide invariant, preserved by the whole simulation loop:
tracking, the inventory–log correspondence, the gating property, the
untouchability of too-slow instances, and (under unique ids)
conservation. -/
theorem simLoop_invariant (A0 : List Task) (P : Params) :
    ∀ (fuel : ℕ) (s final : SimState),
      simLoop P fuel s = some final →
      Tracks A0 s.arena →
      (∀ k, s.inventory k = logInv s.log k) →
      GoodLog A0 (P.slot_duration_minutes * 60) s.log →
      (∀ i, P.slot_duration_minutes * 60 < tppAt A0 i → remAt s.arena i = remAt A0 i) →
      (Tracks A0 final.arena ∧
        (∀ k, final.inventory k = logInv final.log k) ∧
        GoodLog A0 (P.slot_duration_minutes * 60) final.log ∧
        (∀ i, P.slot_duration_minutes * 60 < tppAt A0 i → remAt final.arena i = remAt A0 i) ∧
        (idsUnique A0 → ConsInv A0 s.arena s.inventory →
          ConsInv A0 final.arena final.inventory)) := by
  intro fuel
  induction fuel with
  | zero => intro s final h; cases h
  | succ n ih =>
    intro s final h htr hcorr hgood hslow
    rw [simLoop] at h
    split at h
    · cases h
      exact ⟨htr, hcorr, hgood, hslow, fun _ hc => hc⟩
    · dsimp only at h
      split at h
      · exact ih ⟨s.arena, s.inventory, s.schedule, s.log,
          s.time + P.slot_duration_minutes, s.time / workday_minutes + 1⟩
          final h htr hcorr hgood hslow
      · split at h
        · cases h
        · rename_i ws hrw
          obtain ⟨htr1, _, _, hrem1, hcorr1, hgood1, hcons1⟩ :=
            runWorkers_invariant A0 s.inventory _ _ _ _ _ _ _ _ hrw htr
              (fun q hq => availableOf_reqsOk htr (worker_assignments_mem hq))
              (fun j hj => availableOf_reqsOk htr hj)
              (fun k => le_rfl) hcorr hgood
          have hslow1 : ∀ i, P.slot_duration_minutes * 60 < tppAt A0 i →
              remAt ws.1.arena i = remAt A0 i :=
            fun i hb => (hrem1 i hb).trans (hslow i hb)
          split at h
          · cases h
            exact ⟨htr1, hcorr1, hgood1, hslow1, fun hu hc => hcons1 hu hc⟩
          · obtain ⟨htr2, hcorr2, hgood2, hslow2, hcons2⟩ :=
              ih ⟨ws.1.arena, ws.1.inventory, ws.2, ws.1.log,
                s.time + P.slot_duration_minutes, s.time / workday_minutes + 1⟩
                final h htr1 hcorr1 hgood1 hslow1
            exact ⟨htr2, hcorr2, hgood2, hslow2, fun hu hc => hcons2 hu (hcons1 hu hc)⟩

/-- Unpacking a successful `assign_tasks` run into its final loop state:
the returned fields are projections of the state in which the fueled
`while True` loop stopped, started from the expanded order with zero
inventory, empty accumulators and clock 0. -/
theorem assign_tasks_run {order : List (String × ℕ)} {wrows : List WorkerRow}
    {catalog : List ProductRow} {slot : ℕ} {r : SimResult}
    (h : assign_tasks order wrows catalog slot = some r) :
    ∃ (P : Params) (fuel : ℕ) (sfin : SimState),
      simLoop P fuel ⟨expandOrder order catalog, fun _ => 0, [], [], 0, 1⟩ = some sfin ∧
      P.slot_duration_minutes = slot ∧
      r.inventory = sfin.inventory ∧ r.simulation_log = sfin.log ∧
      r.all_task_instances = sfin.arena ∧ r.schedule = sfin.schedule := by
  unfold assign_tasks at h
  split at h
  · cases h
  · dsimp only at h
    split at h
    · cases h
    · obtain ⟨sfin, hs, hr⟩ := Option.map_eq_some'.mp h
      subst hr
      exact ⟨_, _, sfin, hs, rfl, rfl, rfl, rfl, rfl⟩

/-! ## Claim theorems

Inside this section the `@[irreducible]` arithmetic of `Rat` is made
semireducible so that closed simulation runs evaluate under `decide`. -/

section KernelEval

attribute [local semireducible] Rat.add Rat.sub Rat.mul Rat.inv Rat.ofScientific

set_option maxRecDepth 4000

/-- **C5** — The eligibility gate applies a single uniform policy:
`check_requirements_met_for_qty task inventory` returns `true` when the
task's prerequisite list is empty, and otherwise returns `true` exactly
when every prerequisite id has strictly positive inventory (the
any-produced policy).  In particular a task with no prerequisites is
eligible regardless of the inventory. -/
theorem c5_eligibility_single_policy (task : Task) (inventory : String → ℕ) :
    (check_requirements_met_for_qty task inventory = true ↔
      ∀ req ∈ task.requirements, 0 < inventory req)
    ∧ (task.requirements = [] → check_requirements_met_for_qty task inventory = true) := by
  refine ⟨check_requirements_iff task inventory, fun h => ?_⟩
  exact (check_requirements_iff task inventory).mpr (by rw [h]; exact fun req hreq => absurd hreq (List.not_mem_nil req))

/-- **C7** — `calculate_skill_match` returns the average, over exactly the
skills with required ratio strictly greater than 0, of
`workerSkill / max(0.01, requiredRatio)` (a missing worker skill counting
as 0 via `skillGetD`), and returns the constant `0.1` when no skill has a
positive requirement.  Being a total function, it raises no error. -/
theorem c7_skill_match_average (ws ts : List (String × ℚ)) :
    calculate_skill_match ws ts =
      if (ts.filter (fun p => decide (0 < p.2))).length = 0 then 1/10
      else ((ts.filter (fun p => decide (0 < p.2))).map
              (fun p => skillGetD ws p.1 / max (1/100) p.2)).sum
            / ((ts.filter (fun p => decide (0 < p.2))).length : ℚ) := by
  unfold calculate_skill_match
  rw [skill_fold_spec]
  simp only [Nat.zero_add, zero_add]
  by_cases h : (ts.filter (fun p => decide (0 < p.2))).length = 0
  · rw [if_neg (by omega), if_pos h]
  · rw [if_pos (by omega), if_neg h]

/-- **C4** — For each worker (taken in the fixed deterministic worker
order by `worker_assignments`), the selected task is the instance of the
slot's eligible list maximizing `(skill match, remaining_qty)` in the
strict lexicographic tuple order `keyLt`, ties broken in favor of the
earliest instance of the stable input order: the eligible list splits as
`l1 ++ i :: l2` with every index of `l1` strictly below `i`'s key and no
index anywhere strictly above it.  Moreover two workers of the same slot
may be assigned the same instance: in the concrete two-worker scenario
both workers are assigned instance 0. -/
theorem c4_greedy_selection :
    (∀ (arena : List Task) (avail : List ℕ) (w : Worker), avail ≠ [] →
      ∃ i l1 l2, selectForWorker arena avail w = some i ∧
        avail = l1 ++ i :: l2 ∧
        (∀ j ∈ avail, ¬ keyLt (selectionKey w arena i) (selectionKey w arena j)) ∧
        (∀ j ∈ l1, keyLt (selectionKey w arena j) (selectionKey w arena i)))
    ∧ worker_assignments [Worker.ofRow wRowW, Worker.ofRow wRowV] arenaShare
        (availableOf arenaShare (fun _ => 0)) = [("W", 0), ("V", 0)] := by
  constructor
  · intro arena avail w hne
    obtain ⟨i0, rest, rfl⟩ := List.exists_cons_of_ne_nil hne
    rw [selectForWorker, pyMaxBy_cons_eq]
    obtain ⟨l1, l2, hsplit, hlt, hnlt⟩ := pyFold_first_max (selectionKey w arena) rest i0
    refine ⟨_, l1, l2, rfl, hsplit, ?_, hlt⟩
    intro j hj
    rw [hsplit] at hj
    rcases List.mem_append.mp hj with hj | hj
    · exact keyLt_asymm (hlt j hj)
    · rcases List.mem_cons.mp hj with rfl | hj
      · exact keyLt_irrefl _
      · exact hnlt j hj
  · decide

/-- Witness for C4: the general part applied to the concrete shared
scenario, with the eligible list `[0, 1]`. -/
theorem c4_greedy_selection_witness :
    ∃ i l1 l2, selectForWorker arenaShare [0, 1] (Worker.ofRow wRowW) = some i ∧
      ([0, 1] : List ℕ) = l1 ++ i :: l2 ∧
      (∀ j ∈ ([0, 1] : List ℕ),
        ¬ keyLt (selectionKey (Worker.ofRow wRowW) arenaShare i)
          (selectionKey (Worker.ofRow wRowW) arenaShare j)) ∧
      (∀ j ∈ l1, keyLt (selectionKey (Worker.ofRow wRowW) arenaShare j)
          (selectionKey (Worker.ofRow wRowW) arenaShare i)) :=
  c4_greedy_selection.1 arenaShare [0, 1] (Worker.ofRow wRowW) (by simp)

/-- Within one worker's slot loop: the log grows by exactly the entries
this worker produced (all carrying its name and the slot's time label,
each with a positive piece count); the returned `pieces_total` is the
starting count plus the sum of the new entries' piece counts; the index
the `task` variable holds when the loop exits is the assigned task or a
task switched to from the shared availability list; and no instance's
description ever changes. -/
theorem innerLoop_log_spec (tlabel wname : String) :
    ∀ (fuel : ℕ) (s : WState) (tIdx T p : ℕ) (out : WState × ℕ × ℕ),
      innerLoop tlabel wname fuel s tIdx T p = some out →
      ∃ new, out.1.log = s.log ++ new ∧
        out.2.1 = p + (new.map LogEntry.pieces).sum ∧
        (∀ e ∈ new, e.worker = wname ∧ e.time = tlabel ∧ 0 < e.pieces) ∧
        (out.2.2 = tIdx ∨ out.2.2 ∈ s.avail) ∧
        (∀ i, descAt out.1.arena i = descAt s.arena i) := by
  intro fuel
  induction fuel with
  | zero => intro s tIdx T p out h; cases h
  | succ n ih =>
    intro s tIdx T p out h
    rw [innerLoop] at h
    split at h
    · cases h; exact ⟨[], by simp, by simp, by simp, Or.inl rfl, fun _ => rfl⟩
    · split at h
      · cases h; exact ⟨[], by simp, by simp, by simp, Or.inl rfl, fun _ => rfl⟩
      · rename_i task harena
        split at h
        · -- exhausted current task: filter and re-pick
          dsimp only at h
          split at h
          · cases h; exact ⟨[], by simp, by simp, by simp, Or.inl rfl, fun _ => rfl⟩
          · rename_i j hmax
            obtain ⟨new, hlog, hp, hmem, hfin, hdesc⟩ := ih _ _ _ _ _ h
            refine ⟨new, hlog, hp, hmem, Or.inr ?_, hdesc⟩
            rcases hfin with hfin | hfin
            · rw [hfin]
              exact (List.mem_filter.mp (pyMaxBy_mem _ _ _ _ hmax)).1
            · exact (List.mem_filter.mp hfin).1
        · -- production branch
          dsimp only at h
          split at h
          · cases h; exact ⟨[], by simp, by simp, by simp, Or.inl rfl, fun _ => rfl⟩
          · rename_i hmp
            obtain ⟨new, hlog, hp, hmem, hfin, hdesc⟩ := ih _ _ _ _ _ h
            refine ⟨⟨tlabel, wname, min task.remaining_qty (T / task.time_per_piece),
              task.task_id, task.description⟩ :: new, ?_, ?_, ?_, hfin,
              fun i => (hdesc i).trans (descAt_set_rem harena _ i)⟩
            · rw [hlog]; simp
            · rw [hp]; simp [Nat.add_assoc]
            · intro e he
              rcases List.mem_cons.mp he with rfl | he
              · exact ⟨rfl, rfl, Nat.pos_of_ne_zero hmp⟩
              · exact hmem e he

/-- **C8 (amended)** — For every slot in which a worker is assigned a
task, exactly one schedule cell is appended at the key
`(day, worker, slot)`; its summary string is rendered from the id of the
*first* task the worker was assigned in the slot and the *total* pieces
the worker produced in the slot across all task switches (the sum of the
piece counts of precisely the log entries this worker appended during the
slot) — but the description component is that of the task the worker held
when its slot loop ended: the loop's result `r` pins that task's index as
`r.2.2` (either the assigned task or one switched to from the shared
availability list, fifth conjunct), descriptions never change during the
run, and the cell's description is `descAt s.arena r.2.2` — after a
mid-slot switch a later task's description, not the first task's (see the
counterexample theorem for the claim as stated). -/
theorem c8_amended_cell_summary (innerFuel slotSec day slotIdx : ℕ)
    (tlabel wname : String) (tIdx : ℕ) (s : WState) (sched : List Cell)
    (out : WState × List Cell)
    (h : processWorker innerFuel slotSec day slotIdx tlabel (s, sched) wname tIdx = some out) :
    ∃ r new,
      innerLoop tlabel wname innerFuel s tIdx slotSec 0 = some r ∧
      out.1 = r.1 ∧
      r.1.log = s.log ++ new ∧
      (∀ e ∈ new, e.worker = wname ∧ e.time = tlabel ∧ 0 < e.pieces) ∧
      (r.2.2 = tIdx ∨ r.2.2 ∈ s.avail) ∧
      out.2 = sched ++ [((day, wname, slotIdx),
        renderCell (taskIdAt s.arena tIdx) (descAt s.arena r.2.2)
          ((new.map LogEntry.pieces).sum))] := by
  unfold processWorker at h
  cases hrun : innerLoop tlabel wname innerFuel s tIdx slotSec 0 with
  | none => rw [hrun] at h; cases h
  | some r =>
    rw [hrun] at h
    obtain ⟨new, hlog, hp, hmem, hfin, hdesc⟩ :=
      innerLoop_log_spec tlabel wname innerFuel s tIdx slotSec 0 r hrun
    cases h
    refine ⟨r, new, rfl, rfl, hlog, hmem, hfin, ?_⟩
    have hp0 : r.2.1 = (new.map LogEntry.pieces).sum := by simpa using hp
    rw [hp0, hdesc r.2.2]

/-- Witness for the amended C8: the mid-slot-switch slot processed
concretely (worker `W`, both instances exhausted in one slot). -/
theorem c8_amended_cell_summary_witness :
    ∃ r new,
      innerLoop "08:00" "W" (innerFuelFor 1800)
          ⟨arenaSwitch, [0, 1], fun _ => 0, []⟩ 0 1800 0 = some r ∧
      ((processWorker (innerFuelFor 1800) 1800 1 0 "08:00"
          (⟨arenaSwitch, [0, 1], fun _ => 0, []⟩, []) "W" 0).getD
        (⟨[], [], fun _ => 0, []⟩, [])).1 = r.1 ∧
      r.1.log = ([] : List LogEntry) ++ new ∧
      (∀ e ∈ new, e.worker = "W" ∧ e.time = "08:00" ∧ 0 < e.pieces) ∧
      (r.2.2 = 0 ∨ r.2.2 ∈ ([0, 1] : List ℕ)) ∧
      ((processWorker (innerFuelFor 1800) 1800 1 0 "08:00"
          (⟨arenaSwitch, [0, 1], fun _ => 0, []⟩, []) "W" 0).getD
        (⟨[], [], fun _ => 0, []⟩, [])).2 = ([] : List Cell) ++ [((1, "W", 0),
        renderCell (taskIdAt arenaSwitch 0) (descAt arenaSwitch r.2.2)
          ((new.map LogEntry.pieces).sum))] :=
  c8_amended_cell_summary (innerFuelFor 1800) 1800 1 0 "08:00" "W" 0
    ⟨arenaSwitch, [0, 1], fun _ => 0, []⟩ [] _ rfl

/-- **C8** (counterexample to the claim as stated) — In the concrete
mid-slot switching run the single schedule cell reads
`"[T1] fold (2 pcs)"`: its task id is the first task worked (`T1`) but
its description (`fold`) belongs to the second task `T2` the worker
switched to; the first task's description is `cut`, so the cell differs
from the one the claim demands (first task's id *and* description). -/
theorem c8_counterexample_cell_mixes_tasks :
    assign_tasks [("P", 1)] [wRowW] [rowCut, rowFold] 30 = some resSwitch ∧
      resSwitch.schedule = [((1, "W", 0), renderCell "T1" "fold" 2)] ∧
      taskIdAt arenaSwitch 0 = "T1" ∧ descAt arenaSwitch 0 = "cut" ∧
      descAt arenaSwitch 1 = "fold" ∧
      (resSwitch.simulation_log.map LogEntry.pieces).sum = 2 ∧
      renderCell "T1" "fold" 2 ≠ renderCell (taskIdAt arenaSwitch 0) (descAt arenaSwitch 0) 2 := by
  exact ⟨rfl, by decide, by decide, by decide, by decide, by decide, by decide⟩

/-- **C9** (code-bug evidence) — With an empty worker selection the claim
that a distinct "no capacity" failure is reported fails: the division
`total_seconds / total_worker_seconds_per_day` at line 236 raises
`ZeroDivisionError`, the blanket `except` at lines 311–313 catches it, and
the caller receives `None` — the very same value returned for any generic
internal simulation error.  The embedding returns `none` at the concrete
failing input (order `{P: 5}`) and, as the second conjunct shows, for
every order, catalog and slot duration whatsoever. -/
theorem c9_no_workers_generic_none :
    assign_tasks [("P", 5)] [] [rowCut] 30 = none ∧
      ∀ (order : List (String × ℕ)) (catalog : List ProductRow) (slot : ℕ),
        assign_tasks order [] catalog slot = none := by
  refine ⟨rfl, ?_⟩
  intro order catalog slot
  unfold assign_tasks
  by_cases h : slot = 0
  · rw [if_pos h]
  · rw [if_neg h]
    simp

/-- **C2** (code-bug evidence) — The termination claim fails on the code:
when no task is ever available (here a single instance whose prerequisite
`T0` is produced by no task), the `continue` at line 255 skips the
safety-cutoff check at lines 299–300; nothing but the clock changes in
that branch, so the availability test keeps failing and the `while True`
loop never exits — neither the DONE nor the ABORTED condition is ever
reached.  In the embedding the loop consumes any amount of fuel without
returning (first conjunct, for every fuel and any starting clock), and
`assign_tasks` yields no result (second conjunct; in Python, a hang). -/
theorem c2_blocked_run_never_terminates :
    (∀ (fuel t d : ℕ),
      simLoop blockedParams fuel ⟨arenaBlocked, fun _ => 0, [], [], t, d⟩ = none)
    ∧ assign_tasks [("P", 1)] [wRowW] [rowBlocked] 30 = none := by
  constructor
  · intro fuel
    induction fuel with
    | zero => intro t d; rfl
    | succ n ih =>
      intro t d
      have step : simLoop blockedParams (n + 1) ⟨arenaBlocked, fun _ => 0, [], [], t, d⟩
          = simLoop blockedParams n
              ⟨arenaBlocked, fun _ => 0, [], [], t + 30, t / 480 + 1⟩ := rfl
      rw [step]
      exact ih (t + 30) (t / 480 + 1)
  · rfl

/-- **C3** (code-bug evidence) — A run that ends by exceeding the safety
cutoff is returned through the very same success shape as a completed
run: the result record (`schedule`, `inventory`, `simulation_log`,
`estimated_days`, `all_task_instances`, `worker_sim_data_map`, lines
302–309) has no terminal-status field at all.  Concretely, the
2000-second-per-piece task can never produce a piece, the clock passes
the cutoff (960 simulated minutes) and the caller receives `some` result
with the demand still unmet (`remaining_qty = 1`, 33 idle schedule
cells) — while the completed `resCut` run (last two conjuncts) arrives
through exactly the same constructor with no distinguishing status. -/
theorem c3_aborted_run_has_no_status :
    assign_tasks [("P", 1)] [wRowW] [rowSlow] 30 = some resSlow ∧
      resSlow.all_task_instances.map Task.remaining_qty = [1] ∧
      resSlow.simulation_log = [] ∧
      resSlow.schedule.length = 33 ∧
      (∀ t ∈ resCut.all_task_instances, t.remaining_qty = 0) ∧
      assign_tasks [("P", 2)] [wRowW] [rowCut] 30 = some resCut := by
  exact ⟨rfl, by decide, by decide, by decide, by decide, rfl⟩

/-- **C1** — For every run of `assign_tasks` that terminates with every
task instance's `remaining_qty` equal to 0 (the DONE condition), in which
each task id belongs to exactly one task instance, the final inventory
count for each task id equals the order quantity that initialized that
instance's `remaining_qty` — equivalently (second conjunct), the sum of
piece counts over all log entries for that id equals the same quantity. -/
theorem c1_conservation (order : List (String × ℕ)) (wrows : List WorkerRow)
    (catalog : List ProductRow) (slot : ℕ) (r : SimResult)
    (huniq : idsUnique (expandOrder order catalog))
    (hrun : assign_tasks order wrows catalog slot = some r)
    (hdone : ∀ t ∈ r.all_task_instances, t.remaining_qty = 0) :
    ∀ i, i < (expandOrder order catalog).length →
      r.inventory (taskIdAt (expandOrder order catalog) i)
          = remAt (expandOrder order catalog) i ∧
      logInv r.simulation_log (taskIdAt (expandOrder order catalog) i)
          = remAt (expandOrder order catalog) i := by
  obtain ⟨P, fuel, sfin, hs, hwslot, hinv, hlog, harena, hsched⟩ := assign_tasks_run hrun
  obtain ⟨htr, hcorr, hgood, hslow, hcons⟩ :=
    simLoop_invariant (expandOrder order catalog) P fuel _ sfin hs
      (Tracks.refl _) (fun _ => rfl) (goodLog_nil _ _) (fun _ _ => rfl)
  have hc : ConsInv (expandOrder order catalog) sfin.arena sfin.inventory :=
    hcons huniq (fun i _ => Nat.add_zero _)
  intro i hi
  have hlen : i < sfin.arena.length := by rw [htr.1]; exact hi
  obtain ⟨t, ht⟩ : ∃ t, sfin.arena.get? i = some t := by
    rw [List.get?_eq_getElem?]
    exact ⟨sfin.arena[i], List.getElem?_eq_some.mpr ⟨hlen, rfl⟩⟩
  have hrem0 : remAt sfin.arena i = 0 := by
    have hmem : t ∈ sfin.arena := List.get?_mem ht
    have := hdone t (by rw [harena]; exact hmem)
    rw [remAt, ht]
    simpa using this
  have hci := hc i hi
  rw [hrem0, Nat.zero_add] at hci
  refine ⟨by rw [hinv]; exact hci, ?_⟩
  rw [hlog, ← hcorr]
  exact hci

/-- Witness for C1: the completed one-task run (order quantity 2)
finishes with inventory and logged pieces both equal to 2 = the order
quantity of the unique instance. -/
theorem c1_conservation_witness :
    resCut.inventory (taskIdAt arenaCut 0) = remAt arenaCut 0 ∧
      logInv resCut.simulation_log (taskIdAt arenaCut 0) = remAt arenaCut 0 :=
  c1_conservation [("P", 2)] [wRowW] [rowCut] 30 resCut
    (by unfold idsUnique; decide) rfl (by decide) 0 (by decide)

/-- **C6** — For every run and every task instance with a non-empty
prerequisite list, no log entry recording production of that instance is
appended before the any-produced gating policy holds for it: at the moment
each production entry for the instance's task id is appended (i.e. for
every decomposition of the final log around an entry), every prerequisite
id already has strictly positive inventory, reconstructed as the summed
piece counts of the preceding entries.  This covers tasks reached by
mid-slot switching, which are drawn from the same slot-start availability
list.  (For an instance with an empty prerequisite list the conclusion is
vacuous.) -/
theorem c6_prereqs_gated (order : List (String × ℕ)) (wrows : List WorkerRow)
    (catalog : List ProductRow) (slot : ℕ) (r : SimResult)
    (huniq : idsUnique (expandOrder order catalog))
    (hrun : assign_tasks order wrows catalog slot = some r) :
    ∀ l1 e l2, r.simulation_log = l1 ++ e :: l2 →
      ∀ i, i < (expandOrder order catalog).length →
        taskIdAt (expandOrder order catalog) i = e.task_id →
        ∀ req ∈ reqsAt (expandOrder order catalog) i, 0 < logInv l1 req := by
  obtain ⟨P, fuel, sfin, hs, _, _, hlog, _, _⟩ := assign_tasks_run hrun
  obtain ⟨_, _, hgood, _, _⟩ :=
    simLoop_invariant (expandOrder order catalog) P fuel _ sfin hs
      (Tracks.refl _) (fun _ => rfl) (goodLog_nil _ _) (fun _ _ => rfl)
  intro l1 e l2 hsplit i hi hid req hreq
  obtain ⟨j, hj, hjid, _, _, hjreq⟩ := hgood l1 e l2 (by rw [← hlog]; exact hsplit)
  have hji : j = i := idsUnique_inj huniq hj hi (by rw [hjid, ← hid])
  subst hji
  exact hjreq req hreq

/-- Witness for C6: in the T1-then-T2 chain run, at the moment the T2
production entry was appended, the prerequisite T1 already had positive
logged inventory. -/
theorem c6_prereqs_gated_witness :
    0 < logInv [⟨"08:00", "W", 1, "T1", "cut"⟩] "T1" :=
  c6_prereqs_gated [("P", 1)] [wRowW] [rowCut, rowGlue] 30 resChain
    (by unfold idsUnique; decide) rfl
    [⟨"08:00", "W", 1, "T1", "cut"⟩] ⟨"08:30", "W", 1, "T2", "glue"⟩ [] (by decide)
    1 (by decide) (by decide) "T1" (by decide)

/-- **C10** — For every run, an instance whose `time_per_piece` exceeds
the slot length in seconds never produces a piece: its `remaining_qty`
stays at its initial order quantity, and — when every instance sharing
its task id is equally slow (in particular when its id is unique) — its
inventory entry stays 0 and no production log entry for its id is ever
appended. -/
theorem c10_slow_task_untouched (order : List (String × ℕ)) (wrows : List WorkerRow)
    (catalog : List ProductRow) (slot : ℕ) (r : SimResult)
    (hrun : assign_tasks order wrows catalog slot = some r) :
    ∀ i, i < (expandOrder order catalog).length →
      slot * 60 < tppAt (expandOrder order catalog) i →
      (remAt r.all_task_instances i = remAt (expandOrder order catalog) i ∧
        ((∀ t ∈ expandOrder order catalog,
            t.task_id = taskIdAt (expandOrder order catalog) i →
            slot * 60 < t.time_per_piece) →
          r.inventory (taskIdAt (expandOrder order catalog) i) = 0 ∧
          ∀ e ∈ r.simulation_log,
            e.task_id ≠ taskIdAt (expandOrder order catalog) i)) := by
  obtain ⟨P, fuel, sfin, hs, hwslot, hinv, hlog, harena, _⟩ := assign_tasks_run hrun
  obtain ⟨htrf, hcorr, hgood, hslow, _⟩ :=
    simLoop_invariant (expandOrder order catalog) P fuel _ sfin hs
      (Tracks.refl _) (fun _ => rfl) (goodLog_nil _ _) (fun _ _ => rfl)
  intro i hi hbig
  refine ⟨by rw [harena]; exact hslow i (by rw [hwslot]; exact hbig), ?_⟩
  intro hall
  have hnolog : ∀ e ∈ sfin.log, e.task_id ≠ taskIdAt (expandOrder order catalog) i := by
    intro e he heq
    obtain ⟨l1, l2', hsp⟩ := List.append_of_mem he
    obtain ⟨j, hj, hjid, hjtpp, _, _⟩ := hgood l1 e l2' hsp
    obtain ⟨tj, htj⟩ : ∃ t, (expandOrder order catalog).get? j = some t := by
      rw [List.get?_eq_getElem?]
      exact ⟨(expandOrder order catalog)[j], List.getElem?_eq_some.mpr ⟨hj, rfl⟩⟩
    have htjid : tj.task_id = taskIdAt (expandOrder order catalog) i := by
      have : taskIdAt (expandOrder order catalog) j = tj.task_id := by
        rw [taskIdAt, htj]; rfl
      rw [← this, hjid, heq]
    have htjtpp : tppAt (expandOrder order catalog) j = tj.time_per_piece := by
      rw [tppAt, htj]; rfl
    have := hall tj (List.get?_mem htj) htjid
    rw [← htjtpp] at this
    rw [hwslot] at hjtpp
    exact absurd this (not_lt.mpr hjtpp)
  refine ⟨?_, by rw [hlog]; exact hnolog⟩
  rw [hinv, hcorr]
  exact logInv_eq_zero hnolog

/-- Witness for C10: the 2000-seconds-per-piece task of the aborted run
keeps its full remaining quantity 1, zero inventory and an empty log. -/
theorem c10_slow_task_untouched_witness :
    remAt resSlow.all_task_instances 0 = remAt arenaSlow 0 ∧
      resSlow.inventory (taskIdAt arenaSlow 0) = 0 ∧
      ∀ e ∈ resSlow.simulation_log, e.task_id ≠ taskIdAt arenaSlow 0 := by
  have h := c10_slow_task_untouched [("P", 1)] [wRowW] [rowSlow] 30 resSlow rfl
    0 (by decide) (by decide)
  exact ⟨h.1, h.2 (by decide)⟩

end KernelEval

end TaskAssign
